import Mathlib

/-
Verification of the ColorSnap color-extraction core.

Shallow embedding of `src/lib/colorExtractor.ts` and `src/lib/utils.ts`:

* JavaScript numbers are modelled by `ℚ` (all values arising here are sums,
  quotients and squares of small integers; the claims under study are about
  counting, bounds and formatting, not about IEEE-754 rounding).
* The `NaN` value that arises when the per-cluster count array is indexed out
  of range (`clusterCounts[point.cluster]++` on an array of length 0, reachable
  when the requested color count is 0) is modelled by `Option ℚ`, with `none`
  playing the role of JS `NaN`/`undefined`: both contaminate `+`, `*`, `/` to a
  non-number and make `x > 0` false, which is all the pipeline does with them.
* `Math.random()` draws are modelled by an explicit stream `rand : ℕ → ℚ`;
  draw number `i` of a run is `rand i` (draw 0 picks the first centroid, draw
  `i` is taken while choosing the `i`-th additional centroid).  The source
  itself takes no seed parameter: it reads the ambient `Math.random`.
* The `distance` field of the source's `Point` record is written on every
  assignment pass but never read anywhere, so it is dropped from the model.
* Out-of-range list reads, which in JS would produce `undefined` and crash on
  field access (unreachable in the executed paths), are made total with
  `List.getD` and an all-zero default.
-/

/-- One decoded pixel: 8-bit red, green, blue, alpha channel values as laid
out (in groups of four bytes) in the `ImageData` buffer the source iterates. -/
structure RGBA where
  r : ℕ
  g : ℕ
  b : ℕ
  a : ℕ
deriving DecidableEq

/-- The source's `Point` record (minus the write-only `distance` field):
one eligible sample with its current cluster assignment. -/
structure Point where
  r : ℚ
  g : ℚ
  b : ℚ
  cluster : ℕ
deriving DecidableEq

instance : Inhabited Point := ⟨⟨0, 0, 0, 0⟩⟩

/-- The source's `RGBColor` record: one centroid. -/
structure RGBColor where
  r : ℚ
  g : ℚ
  b : ℚ
deriving DecidableEq

/-- The source's `ColorData` output record.  `count` and `percentage` are JS
numbers that can be `NaN` on the degenerate `k = 0` path, hence `Option ℚ`. -/
structure ColorData where
  color : String
  count : Option ℚ
  percentage : Option ℚ
deriving DecidableEq

deriving instance DecidableEq for Except

/-- JS addition where `none` stands for `NaN`/`undefined` (both absorb). -/
def jadd : Option ℚ → Option ℚ → Option ℚ
  | some a, some b => some (a + b)
  | _, _ => none

/-- JS multiplication with `NaN` absorption. -/
def jmul : Option ℚ → Option ℚ → Option ℚ
  | some a, some b => some (a * b)
  | _, _ => none

/-- JS division with `NaN` absorption; division by zero is unreachable in the
executed paths and is mapped to the non-number as well. -/
def jdiv : Option ℚ → Option ℚ → Option ℚ
  | some a, some b => if b = 0 then none else some (a / b)
  | _, _ => none

/-- JS `x > 0`: false on `NaN`. -/
def jgt0 : Option ℚ → Bool
  | some a => decide (0 < a)
  | none => false

/-- JS array read `arr[i]`: out of range yields the non-number (the source
only ever adds to or compares such a read, where `undefined` and `NaN`
behave identically). -/
def jsGet (l : List (Option ℚ)) (i : ℕ) : Option ℚ :=
  l.getD i none

/-- JS array write `arr[i] = v`: in range it updates, past the end it extends
the array (intermediate holes read as the non-number). -/
def jsSetExt (l : List (Option ℚ)) (i : ℕ) (v : Option ℚ) : List (Option ℚ) :=
  if i < l.length then l.set i v
  else l ++ List.replicate (i - l.length) none ++ [v]

/-- JS `Math.round`: round half toward positive infinity. -/
def jsRound (q : ℚ) : ℤ :=
  ⌊q + 1 / 2⌋

/-- Lowercase hexadecimal digit character, as produced by `toString(16)`:
code point 48 + n for a decimal digit, 87 + n (so `a` to `f`) above 9. -/
def hexDigitChar (n : ℕ) : Char :=
  if n < 10 then Char.ofNat (48 + n) else Char.ofNat (87 + n)

/-- Base-16 digit expansion (most significant first), with structural fuel so
that the kernel can evaluate it; `fuel = n + 1` always suffices. -/
def hexDigitsAux : ℕ → ℕ → List Char
  | 0, _ => []
  | fuel + 1, n =>
    if n < 16 then [hexDigitChar n]
    else hexDigitsAux fuel (n / 16) ++ [hexDigitChar (n % 16)]

/-- Model of JS `Number.prototype.toString(16)` on a natural number. -/
def hexStr (n : ℕ) : String :=
  ⟨hexDigitsAux (n + 1) n⟩

/-- Model of JS `toString(16)` on an integer (negatives get a sign, as in JS;
that branch is unreachable for the in-range channel values). -/
def jsToString16 (n : ℤ) : String :=
  if n < 0 then "-" ++ hexStr n.natAbs else hexStr n.toNat

/-- Model of JS `toUpperCase` on one ASCII character. -/
def upperChar (c : Char) : Char :=
  if 97 ≤ c.toNat ∧ c.toNat ≤ 122 then Char.ofNat (c.toNat - 32) else c

/-- Model of JS `String.prototype.toUpperCase` (ASCII input only here). -/
def jsToUpperCase (s : String) : String :=
  ⟨s.data.map upperChar⟩

/-- The source's `toHex` helper inside `rgbToHex`: round, base-16, pad to two
digits. -/
def toHex (value : ℚ) : String :=
  if (jsToString16 (jsRound value)).length = 1 then "0" ++ jsToString16 (jsRound value)
  else jsToString16 (jsRound value)

/-- `rgbToHex` from `src/lib/utils.ts`: build `#rrggbb` then uppercase the
whole template string. -/
def rgbToHex (r g b : ℚ) : String :=
  jsToUpperCase ("#" ++ toHex r ++ toHex g ++ toHex b)

/-- Uppercase hexadecimal digit character for the specification-side
formatter: code point 48 + n for a decimal digit, 55 + n (`A` to `F`)
above 9. -/
def hexDigitUpper (n : ℕ) : Char :=
  if n < 10 then Char.ofNat (48 + n) else Char.ofNat (55 + n)

/-- Specification-side formatter: exactly two uppercase hexadecimal digits,
zero padded, of a channel value already reduced to a natural number. -/
def hexPair (n : ℕ) : String :=
  ⟨[hexDigitUpper (n / 16), hexDigitUpper (n % 16)]⟩

/-- Specification-side `rgbToHex`, following the spec's words: each channel
value rounds to the nearest integer, formats as two uppercase hexadecimal
digits (zero-padded), concatenated with a leading `#`. -/
def rgbToHexSpec (r g b : ℚ) : String :=
  "#" ++ hexPair (jsRound r).toNat ++ hexPair (jsRound g).toNat ++ hexPair (jsRound b).toNat

/-- The downscale arithmetic of `extractColors` (lines 147-158): if the larger
dimension exceeds 200, scale proportionally with `Math.floor` rounding. -/
def downscale (w h : ℕ) : ℕ × ℕ :=
  if w > h ∧ w > 200 then (200, (⌊(h : ℚ) * ((200 : ℚ) / (w : ℚ))⌋).toNat)
  else if h > 200 then ((⌊(w : ℚ) * ((200 : ℚ) / (h : ℚ))⌋).toNat, 200)
  else (w, h)

/-- The pixel filter of `extractColors` (lines 178-196): a pixel with alpha
below 128 contributes no sample; an eligible pixel becomes a `Point` with
cluster 0. -/
def pixelToPoint (px : RGBA) : Option Point :=
  if px.a < 128 then none else some ⟨(px.r : ℚ), (px.g : ℚ), (px.b : ℚ), 0⟩

/-- The sampler: all eligible samples of the pixel buffer, in order. -/
def samplePoints (data : List RGBA) : List Point :=
  data.filterMap pixelToPoint

/-- Squared Euclidean distance in RGB space between a centroid and a sample's
channels, as computed with `Math.pow(x, 2)` in the source. -/
def sqDistTo (cr cg cb pr pg pb : ℚ) : ℚ :=
  (pr - cr) ^ 2 + (pg - cg) ^ 2 + (pb - cb) ^ 2

/-- The assignment scan of `kMeans` (lines 83-104) for one sample: walk the
centroid list keeping the index of the strictly smallest squared distance
(`minDistance` starts at `Infinity`, modelled by the `none` state, and ties
keep the earlier index). -/
def nearestGo (pr pg pb : ℚ) : List RGBColor → ℕ → Option ℚ → ℕ → ℕ
  | [], _, _, best => best
  | c :: cs, i, none, _ =>
    nearestGo pr pg pb cs (i + 1) (some (sqDistTo c.r c.g c.b pr pg pb)) i
  | c :: cs, i, some m, best =>
    if sqDistTo c.r c.g c.b pr pg pb < m then
      nearestGo pr pg pb cs (i + 1) (some (sqDistTo c.r c.g c.b pr pg pb)) i
    else nearestGo pr pg pb cs (i + 1) (some m) best

/-- Index of the nearest centroid for a bare RGB triple. -/
def nearestClusterRGB (cs : List RGBColor) (t : ℚ × ℚ × ℚ) : ℕ :=
  nearestGo t.1 t.2.1 t.2.2 cs 0 none 0

/-- Index of the nearest centroid for a sample. -/
def nearestCluster (cs : List RGBColor) (p : Point) : ℕ :=
  nearestGo p.r p.g p.b cs 0 none 0

/-- One sample after the assignment step: same channels, new cluster index. -/
def assignPoint (cs : List RGBColor) (p : Point) : Point :=
  ⟨p.r, p.g, p.b, nearestCluster cs p⟩

/-- The assignment step applied to every sample. -/
def assignAll (cs : List RGBColor) (ps : List Point) : List Point :=
  ps.map (assignPoint cs)

/-- The `hasChanged` flag of one assignment pass: some sample's stored cluster
differs from its newly computed nearest centroid. -/
def anyChanged (cs : List RGBColor) (ps : List Point) : Bool :=
  ps.any (fun p => decide (p.cluster ≠ nearestCluster cs p))

/-- `newCentroids[p.cluster] += channels; counts[p.cluster]++` folded over the
samples (lines 115-120).  Writes through an out-of-range cluster index are
dropped, which is unreachable in the executed paths. -/
def accumulate : List Point → List RGBColor × List ℕ → List RGBColor × List ℕ
  | [], acc => acc
  | p :: ps, (sums, cnts) =>
    accumulate ps
      (sums.set p.cluster
        ⟨(sums.getD p.cluster ⟨0, 0, 0⟩).r + p.r,
         (sums.getD p.cluster ⟨0, 0, 0⟩).g + p.g,
         (sums.getD p.cluster ⟨0, 0, 0⟩).b + p.b⟩,
       cnts.set p.cluster (cnts.getD p.cluster 0 + 1))

/-- The per-index mean write of the update step (lines 123-129): a centroid
with a positive count becomes the mean of its accumulated sums, an empty one
keeps its previous value. -/
def meanAt (sums : List RGBColor) (cnts : List ℕ) (i : ℕ) (c : RGBColor) : RGBColor :=
  if 0 < cnts.getD i 0 then
    ⟨(sums.getD i ⟨0, 0, 0⟩).r / (cnts.getD i 0 : ℚ),
     (sums.getD i ⟨0, 0, 0⟩).g / (cnts.getD i 0 : ℚ),
     (sums.getD i ⟨0, 0, 0⟩).b / (cnts.getD i 0 : ℚ)⟩
  else c

/-- Rebuild the centroid list index by index, as the update loop mutates
`centroids[i]` in place. -/
def rebuildGo (sums : List RGBColor) (cnts : List ℕ) : ℕ → List RGBColor → List RGBColor
  | _, [] => []
  | i, c :: rest => meanAt sums cnts i c :: rebuildGo sums cnts (i + 1) rest

/-- The full update step of one `kMeans` iteration (lines 111-129). -/
def updateStep (ps : List Point) (cs : List RGBColor) : List RGBColor :=
  rebuildGo (accumulate ps (cs.map (fun _ => ⟨0, 0, 0⟩), List.replicate cs.length 0)).1
    (accumulate ps (cs.map (fun _ => ⟨0, 0, 0⟩), List.replicate cs.length 0)).2
    0 cs

/-- The iteration loop of `kMeans` (lines 79-130): assign, stop early when no
assignment changed, otherwise update the centroids and continue. -/
def kmeansLoop : ℕ → List Point → List RGBColor → List Point × List RGBColor
  | 0, ps, cs => (ps, cs)
  | n + 1, ps, cs =>
    if anyChanged cs ps then
      kmeansLoop n (assignAll cs ps) (updateStep (assignAll cs ps) cs)
    else (assignAll cs ps, cs)

/-- Minimum squared distance from a sample to the already-chosen centroids
(`Math.min` folded from `Infinity`; the empty case is unreachable since the
first centroid is pushed before any distance is taken). -/
def minSqDist (cs : List RGBColor) (p : Point) : ℚ :=
  match cs with
  | [] => 0
  | c :: rest =>
    rest.foldl (fun m c2 => min m (sqDistTo c2.r c2.g c2.b p.r p.g p.b))
      (sqDistTo c.r c.g c.b p.r p.g p.b)

/-- The cumulative-weight walk of the k-means++ selection (lines 59-68):
subtract weights from the drawn value until it is no longer positive; if the
walk never triggers, `selectedIndex` keeps its initial value 0. -/
def selectWalk : List ℚ → ℚ → ℕ → Option ℕ
  | [], _, _ => none
  | d :: ds, rv, j => if rv - d ≤ 0 then some j else selectWalk ds (rv - d) (j + 1)

/-- The selected sample index of one weighted draw. -/
def selectIndex (ds : List ℚ) (rv : ℚ) : ℕ :=
  (selectWalk ds rv 0).getD 0

/-- The centroid copy of a sample (`{r: points[i].r, ...}`). -/
def pointRGB (p : Point) : RGBColor :=
  ⟨p.r, p.g, p.b⟩

/-- One iteration of the k-means++ seeding loop (lines 42-75): weight every
sample by its squared distance to the nearest chosen centroid, draw
`Math.random() * totalDistance`, walk the cumulative weights, push a copy of
the selected sample.  The draw used at this iteration is `rand cs.length`. -/
def seedStep (points : List Point) (rand : ℕ → ℚ) (cs : List RGBColor) : List RGBColor :=
  cs ++ [pointRGB (points.getD
    (selectIndex (points.map (minSqDist cs))
      (rand cs.length * (points.map (minSqDist cs)).sum))
    ⟨0, 0, 0, 0⟩)]

/-- The seeding loop run for a fixed number of additional centroids. -/
def seedExtras (points : List Point) (rand : ℕ → ℚ) : ℕ → List RGBColor → List RGBColor
  | 0, cs => cs
  | n + 1, cs => seedExtras points rand n (seedStep points rand cs)

/-- Full k-means++ seeding (lines 32-76) for a non-empty sample list: the
first centroid is a uniformly drawn sample (`Math.floor(rand 0 * length)`),
then the loop `for (i = 1; i < k && i < points.length; i++)` adds
`(min k length - 1)` more (clamped at zero). -/
def seedCentroids (points : List Point) (k : ℤ) (rand : ℕ → ℚ) : List RGBColor :=
  seedExtras points rand (min k (points.length : ℤ) - 1).toNat
    [pointRGB (points.getD (⌊rand 0 * ((points.length : ℚ))⌋).toNat ⟨0, 0, 0, 0⟩)]

/-- `kMeans` from `src/lib/colorExtractor.ts`: seed (only when there are
samples), then iterate.  Returns the mutated sample list together with the
final centroids, since the caller reads both. -/
def kMeans (points : List Point) (k : ℤ) (rand : ℕ → ℚ) (maxIterations : ℕ) :
    List Point × List RGBColor :=
  kmeansLoop maxIterations points
    (if 0 < points.length then seedCentroids points k rand else [])

/-- The `clusterCounts` histogram loop of `extractColors` (lines 213-217),
with the JS array semantics of `clusterCounts[point.cluster]++` (an index at
the end of the array extends it with a non-number). -/
def bumpCounts : List Point → List (Option ℚ) → List (Option ℚ)
  | [], cnts => cnts
  | p :: ps, cnts => bumpCounts ps (jsSetExt cnts p.cluster (jadd (jsGet cnts p.cluster) (some 1)))

/-- `new Array(k).fill(0)` followed by the histogram loop. -/
def countClusters (ps : List Point) (k : ℕ) : List (Option ℚ) :=
  bumpCounts ps (List.replicate k (some 0))

/-- The result-construction `map` of `extractColors` (lines 222-227), with its
running index: hex color, cluster count, `count / total * 100`. -/
def buildEntries (counts : List (Option ℚ)) (total : ℚ) : List RGBColor → ℕ → List ColorData
  | [], _ => []
  | c :: cs, i =>
    ⟨rgbToHex c.r c.g c.b, jsGet counts i,
      jmul (jdiv (jsGet counts i) (some total)) (some 100)⟩
      :: buildEntries counts total cs (i + 1)

/-- The sort comparator `(a, b) => b.count - a.count`: descending count order
(`none` counts never reach the sort, the zero-count filter removes them). -/
def byCountDesc (a b : ColorData) : Prop :=
  b.count.getD 0 ≤ a.count.getD 0

instance : DecidableRel byCountDesc :=
  fun a b => inferInstanceAs (Decidable (b.count.getD 0 ≤ a.count.getD 0))

instance : IsTotal ColorData byCountDesc :=
  ⟨fun a b => le_total (b.count.getD 0) (a.count.getD 0)⟩

instance : IsTrans ColorData byCountDesc :=
  ⟨fun _ _ _ h1 h2 => le_trans h2 h1⟩

/-- The final `.sort((a, b) => b.count - a.count)`: some order consistent with
the comparator (the source's engine sort and this insertion sort may differ
only on ties, which the spec leaves unspecified). -/
def sortColors (l : List ColorData) : List ColorData :=
  List.insertionSort byCountDesc l

/-- Number of distinct sample colors of the eligible pixels. -/
def distinctColorCount (data : List RGBA) : ℕ :=
  ((samplePoints data).map (fun p => (p.r, p.g, p.b))).dedup.length

/-- `extractColors` from the point where the pixel buffer is in hand
(lines 176-231): filter samples, fall back to the single white entry when
none survive, clamp `k`, run `kMeans`, histogram the final assignment, build,
filter and sort the palette.  The promise's reject path is the `error`
constructor; the `RangeError` is what `new Array(k)` throws for a negative
length (the source computes `clusterCounts` after `kMeans` returns, so the
order of the two steps is observationally the same). -/
def extractColorsCore (data : List RGBA) (colorCount : ℤ) (rand : ℕ → ℚ) :
    Except String (List ColorData) :=
  if (samplePoints data).length = 0 then
    Except.ok [⟨"#FFFFFF", some 1, some 100⟩]
  else if min colorCount ((samplePoints data).length : ℤ) < 0 then
    Except.error "RangeError: Invalid array length"
  else
    Except.ok (sortColors (List.filter (fun c => jgt0 c.count)
      (buildEntries
        (countClusters
          (kMeans (samplePoints data) (min colorCount ((samplePoints data).length : ℤ)) rand 100).1
          (min colorCount ((samplePoints data).length : ℤ)).toNat)
        ((samplePoints data).length : ℚ)
        (kMeans (samplePoints data) (min colorCount ((samplePoints data).length : ℤ)) rand 100).2
        0)))

/-- Sum of the `count` fields with JS non-number absorption: it is a rational
only when every summand is. -/
def jsumCounts (l : List ColorData) : Option ℚ :=
  l.foldr (fun e acc => jadd e.count acc) (some 0)

/-- Bounds check for one sample: all three channels in `[0, 255]`. -/
def pointInRange (p : Point) : Bool :=
  decide (0 ≤ p.r) && decide (p.r ≤ 255) && decide (0 ≤ p.g) && decide (p.g ≤ 255) &&
    decide (0 ≤ p.b) && decide (p.b ≤ 255)

/-- Bounds check for one centroid: all three channels in `[0, 255]`. -/
def centroidInRange (c : RGBColor) : Bool :=
  decide (0 ≤ c.r) && decide (c.r ≤ 255) && decide (0 ≤ c.g) && decide (c.g ≤ 255) &&
    decide (0 ≤ c.b) && decide (c.b ≤ 255)

section ListHelpers

variable {α β : Type}

theorem list_getD_set_self : ∀ (l : List α) (i : ℕ) (v d : α), i < l.length →
    (l.set i v).getD i d = v := by
  intro l
  induction l with
  | nil => intro i v d h; simp at h
  | cons a t ih =>
    intro i v d h
    cases i with
    | zero => simp
    | succ n => simpa using ih n v d (by simpa using h)

theorem list_getD_set_ne : ∀ (l : List α) (i j : ℕ) (v d : α), i ≠ j →
    (l.set i v).getD j d = l.getD j d := by
  intro l
  induction l with
  | nil => intro i j v d _; simp
  | cons a t ih =>
    intro i j v d h
    cases i with
    | zero =>
      cases j with
      | zero => exact absurd rfl h
      | succ m => simp
    | succ n =>
      cases j with
      | zero => simp
      | succ m => simpa using ih n m v d (fun he => h (by omega))

theorem list_getD_replicate : ∀ (n i : ℕ) (v d : α), i < n →
    (List.replicate n v).getD i d = v := by
  intro n
  induction n with
  | zero => intro i v d h; omega
  | succ m ih =>
    intro i v d h
    cases i with
    | zero => simp [List.replicate]
    | succ j => simpa [List.replicate] using ih j v d (by omega)

theorem list_getD_map_const : ∀ (l : List β) (c d : α) (i : ℕ), i < l.length →
    (l.map (fun _ => c)).getD i d = c := by
  intro l
  induction l with
  | nil => intro c d i h; simp at h
  | cons a t ih =>
    intro c d i h
    cases i with
    | zero => simp
    | succ n => simpa using ih c d n (by simpa using h)

theorem list_getD_mem_or_eq : ∀ (l : List α) (i : ℕ) (d : α),
    l.getD i d ∈ l ∨ l.getD i d = d := by
  intro l
  induction l with
  | nil => intro i d; simp
  | cons a t ih =>
    intro i d
    cases i with
    | zero => left; simp
    | succ n =>
      rw [List.getD_cons_succ]
      rcases ih n d with h | h
      · exact Or.inl (List.mem_cons_of_mem a h)
      · exact Or.inr h

theorem list_getD_eq_get : ∀ (l : List α) (i : ℕ) (d : α) (h : i < l.length),
    l.getD i d = l.get ⟨i, h⟩ := by
  intro l
  induction l with
  | nil => intro i d h; simp at h
  | cons a t ih =>
    intro i d h
    cases i with
    | zero => simp
    | succ n => simpa using ih n d (by simpa using h)

theorem list_sum_nonneg : ∀ (l : List ℚ), (∀ x ∈ l, 0 ≤ x) → 0 ≤ l.sum := by
  intro l
  induction l with
  | nil => intro _; simp
  | cons a t ih =>
    intro h
    have ha := h a (by simp)
    have ht := ih (fun x hx => h x (by simp [hx]))
    simpa using add_nonneg ha ht

theorem list_sum_le_mul : ∀ (l : List ℚ) (bound : ℚ), (∀ x ∈ l, x ≤ bound) →
    l.sum ≤ (l.length : ℚ) * bound := by
  intro l
  induction l with
  | nil => intro bound _; simp
  | cons a t ih =>
    intro bound h
    have ha := h a (by simp)
    have ht := ih bound (fun x hx => h x (by simp [hx]))
    have : a + t.sum ≤ bound + (t.length : ℚ) * bound := add_le_add ha ht
    calc (a :: t).sum = a + t.sum := by simp
      _ ≤ bound + (t.length : ℚ) * bound := this
      _ = (((a :: t).length : ℚ)) * bound := by simp [List.length_cons]; ring

theorem list_sum_map_add (l : List α) (f g : α → ℚ) :
    (l.map (fun x => f x + g x)).sum = (l.map f).sum + (l.map g).sum := by
  induction l with
  | nil => simp
  | cons a t ih => simp [ih]; ring

end ListHelpers

/-- C10: the downscaling arithmetic, on the concrete input width 10000 and
height 1 (both dimensions at least 1, larger dimension above 200), produces a
computed dimension of 0: the downscale step does not guarantee that both
output dimensions stay positive. -/
theorem c10_downscale_zero_dimension :
    downscale 10000 1 = (200, 0) ∧ 0 < 10000 ∧ 0 < 1 ∧ 200 < 10000 := by
  refine ⟨?_, by norm_num, by norm_num, by norm_num⟩
  have h1 : (10000 > 1 ∧ 10000 > 200) := by norm_num
  rw [downscale, if_pos h1]
  norm_num

/-- C5: when every pixel is below the alpha threshold (so the eligible sample
set is empty), `extractColors` does not error: it resolves with exactly the
single white fallback entry `{color: "#FFFFFF", count: 1, percentage: 100}`,
returning before the clusterer is ever invoked. -/
theorem c5_empty_samples_fallback (data : List RGBA) (K : ℤ) (rand : ℕ → ℚ)
    (h : ∀ px ∈ data, px.a < 128) :
    extractColorsCore data K rand = Except.ok [⟨"#FFFFFF", some 1, some 100⟩] := by
  have hsp : samplePoints data = [] := by
    rw [samplePoints, List.filterMap_eq_nil_iff]
    intro px hpx
    rw [pixelToPoint, if_pos (h px hpx)]
  rw [extractColorsCore, if_pos (by rw [hsp]; rfl)]

/-- Witness for C5 at a concrete one-pixel, alpha-3 input. -/
theorem c5_empty_samples_fallback_witness :
    (∀ px ∈ [(⟨7, 8, 9, 3⟩ : RGBA)], px.a < 128) ∧
      extractColorsCore [⟨7, 8, 9, 3⟩] 6 (fun _ => 0) =
        Except.ok [⟨"#FFFFFF", some 1, some 100⟩] :=
  ⟨by decide, c5_empty_samples_fallback [⟨7, 8, 9, 3⟩] 6 (fun _ => 0) (by decide)⟩

theorem nearestGo_eq_or_lt : ∀ (cs : List RGBColor) (pr pg pb : ℚ) (i : ℕ)
    (minD : Option ℚ) (best : ℕ),
    nearestGo pr pg pb cs i minD best = best ∨
      nearestGo pr pg pb cs i minD best < i + cs.length := by
  intro cs
  induction cs with
  | nil => intro pr pg pb i minD best; left; rfl
  | cons c rest ih =>
    intro pr pg pb i minD best
    cases minD with
    | none =>
      rcases ih pr pg pb (i + 1) (some (sqDistTo c.r c.g c.b pr pg pb)) i with h | h
      · right
        rw [nearestGo, h]
        simp [List.length_cons]
      · right
        rw [nearestGo]
        simp only [List.length_cons]
        omega
    | some m =>
      rw [nearestGo]
      by_cases hd : sqDistTo c.r c.g c.b pr pg pb < m
      · rw [if_pos hd]
        rcases ih pr pg pb (i + 1) (some (sqDistTo c.r c.g c.b pr pg pb)) i with h | h
        · right; rw [h]; simp [List.length_cons]
        · right; simp only [List.length_cons]; omega
      · rw [if_neg hd]
        rcases ih pr pg pb (i + 1) (some m) best with h | h
        · left; exact h
        · right; simp only [List.length_cons]; omega

theorem nearestCluster_lt (cs : List RGBColor) (p : Point) (h : cs ≠ []) :
    nearestCluster cs p < cs.length := by
  rcases nearestGo_eq_or_lt cs p.r p.g p.b 0 none 0 with h0 | hlt
  · rw [nearestCluster, h0]
    exact List.length_pos.mpr h
  · simpa [nearestCluster] using hlt

theorem assignPoint_assignPoint (cs2 cs1 : List RGBColor) (p : Point) :
    assignPoint cs2 (assignPoint cs1 p) = assignPoint cs2 p := rfl

theorem assignAll_assignAll (cs2 cs1 : List RGBColor) (ps : List Point) :
    assignAll cs2 (assignAll cs1 ps) = assignAll cs2 ps := by
  simp [assignAll, List.map_map, Function.comp_def, assignPoint_assignPoint]

theorem rebuildGo_length (sums : List RGBColor) (cnts : List ℕ) :
    ∀ (cs : List RGBColor) (i : ℕ), (rebuildGo sums cnts i cs).length = cs.length := by
  intro cs
  induction cs with
  | nil => intro i; rfl
  | cons c rest ih => intro i; simp [rebuildGo, ih]

theorem updateStep_length (ps : List Point) (cs : List RGBColor) :
    (updateStep ps cs).length = cs.length := by
  rw [updateStep]; exact rebuildGo_length _ _ cs 0

theorem kmeansLoop_cs_length : ∀ (fuel : ℕ) (ps : List Point) (cs : List RGBColor),
    (kmeansLoop fuel ps cs).2.length = cs.length := by
  intro fuel
  induction fuel with
  | zero => intro ps cs; rfl
  | succ n ih =>
    intro ps cs
    rw [kmeansLoop]
    by_cases h : anyChanged cs ps = true
    · rw [if_pos h, ih, updateStep_length]
    · rw [if_neg h]

/-- The sample list returned by the iteration loop is exactly the input
samples re-assigned against one single centroid list (the one active at the
last assignment pass), of the same length as the seeded list. -/
theorem kmeansLoop_points_char : ∀ (fuel : ℕ) (ps : List Point) (cs : List RGBColor),
    0 < fuel →
    ∃ csStar : List RGBColor, csStar.length = cs.length ∧
      (kmeansLoop fuel ps cs).1 = assignAll csStar ps := by
  intro fuel
  induction fuel with
  | zero => intro ps cs h; omega
  | succ n ih =>
    intro ps cs _
    rw [kmeansLoop]
    by_cases h : anyChanged cs ps = true
    · rw [if_pos h]
      cases n with
      | zero => exact ⟨cs, rfl, rfl⟩
      | succ m =>
        obtain ⟨csT, hlen, hchar⟩ :=
          ih (assignAll cs ps) (updateStep (assignAll cs ps) cs) (by omega)
        exact ⟨csT, by rw [hlen, updateStep_length], by rw [hchar, assignAll_assignAll]⟩
    · rw [if_neg h]
      exact ⟨cs, rfl, rfl⟩

theorem seedStep_length (points : List Point) (rand : ℕ → ℚ) (cs : List RGBColor) :
    (seedStep points rand cs).length = cs.length + 1 := by
  simp [seedStep]

theorem seedExtras_length (points : List Point) (rand : ℕ → ℚ) :
    ∀ (n : ℕ) (cs : List RGBColor), (seedExtras points rand n cs).length = n + cs.length := by
  intro n
  induction n with
  | zero => intro cs; simp [seedExtras]
  | succ m ih =>
    intro cs
    rw [seedExtras, ih, seedStep_length]
    omega

theorem seedCentroids_length (points : List Point) (k : ℤ) (rand : ℕ → ℚ) :
    (seedCentroids points k rand).length = (min k (points.length : ℤ) - 1).toNat + 1 := by
  rw [seedCentroids, seedExtras_length]
  rfl

theorem accumulate_fst_length : ∀ (ps : List Point) (sums : List RGBColor) (cnts : List ℕ),
    (accumulate ps (sums, cnts)).1.length = sums.length := by
  intro ps
  induction ps with
  | nil => intro sums cnts; rfl
  | cons p rest ih =>
    intro sums cnts
    rw [accumulate, ih]
    simp

theorem accumulate_snd_length : ∀ (ps : List Point) (sums : List RGBColor) (cnts : List ℕ),
    (accumulate ps (sums, cnts)).2.length = cnts.length := by
  intro ps
  induction ps with
  | nil => intro sums cnts; rfl
  | cons p rest ih =>
    intro sums cnts
    rw [accumulate, ih]
    simp

theorem accumulate_cnts_getD : ∀ (ps : List Point) (sums : List RGBColor) (cnts : List ℕ)
    (i : ℕ), i < cnts.length →
    (accumulate ps (sums, cnts)).2.getD i 0 =
      cnts.getD i 0 + (ps.filter (fun p => decide (p.cluster = i))).length := by
  intro ps
  induction ps with
  | nil => intro sums cnts i _; simp [accumulate]
  | cons p rest ih =>
    intro sums cnts i hi
    rw [accumulate]
    by_cases hc : p.cluster = i
    · rw [hc, ih _ _ i (by simpa using hi),
        list_getD_set_self _ _ _ _ hi,
        List.filter_cons_of_pos (by simp [hc])]
      simp
      omega
    · rw [ih _ _ i (by simpa using hi),
        list_getD_set_ne _ _ _ _ _ hc,
        List.filter_cons_of_neg (by simpa using hc)]

theorem accumulate_sums_getD : ∀ (ps : List Point) (sums : List RGBColor) (cnts : List ℕ)
    (i : ℕ), i < sums.length →
    (accumulate ps (sums, cnts)).1.getD i ⟨0, 0, 0⟩ =
      ⟨(sums.getD i ⟨0, 0, 0⟩).r +
          ((ps.filter (fun p => decide (p.cluster = i))).map (fun p => p.r)).sum,
        (sums.getD i ⟨0, 0, 0⟩).g +
          ((ps.filter (fun p => decide (p.cluster = i))).map (fun p => p.g)).sum,
        (sums.getD i ⟨0, 0, 0⟩).b +
          ((ps.filter (fun p => decide (p.cluster = i))).map (fun p => p.b)).sum⟩ := by
  intro ps
  induction ps with
  | nil => intro sums cnts i _; simp [accumulate]
  | cons p rest ih =>
    intro sums cnts i hi
    rw [accumulate]
    by_cases hc : p.cluster = i
    · rw [hc, ih _ _ i (by simpa using hi),
        list_getD_set_self _ _ _ _ hi,
        List.filter_cons_of_pos (by simp [hc])]
      simp
      refine ⟨by ring, by ring, by ring⟩
    · rw [ih _ _ i (by simpa using hi),
        list_getD_set_ne _ _ _ _ _ hc,
        List.filter_cons_of_neg (by simpa using hc)]

theorem rebuildGo_getD (sums : List RGBColor) (cnts : List ℕ) :
    ∀ (cs : List RGBColor) (i0 j : ℕ), j < cs.length →
    (rebuildGo sums cnts i0 cs).getD j ⟨0, 0, 0⟩ =
      meanAt sums cnts (i0 + j) (cs.getD j ⟨0, 0, 0⟩) := by
  intro cs
  induction cs with
  | nil => intro i0 j h; simp at h
  | cons c rest ih =>
    intro i0 j h
    cases j with
    | zero => simp [rebuildGo]
    | succ m =>
      rw [rebuildGo, List.getD_cons_succ, List.getD_cons_succ,
        ih (i0 + 1) m (by simpa using h)]
      congr 1
      omega

/-- Per-index value of the update step: the component-wise mean of the
assigned samples when there are any, the previous centroid otherwise. -/
theorem updateStep_getD (ps : List Point) (cs : List RGBColor) (i : ℕ) (hi : i < cs.length) :
    (updateStep ps cs).getD i ⟨0, 0, 0⟩ =
      if 0 < (ps.filter (fun p => decide (p.cluster = i))).length then
        ⟨((ps.filter (fun p => decide (p.cluster = i))).map (fun p => p.r)).sum /
            ((ps.filter (fun p => decide (p.cluster = i))).length : ℚ),
          ((ps.filter (fun p => decide (p.cluster = i))).map (fun p => p.g)).sum /
            ((ps.filter (fun p => decide (p.cluster = i))).length : ℚ),
          ((ps.filter (fun p => decide (p.cluster = i))).map (fun p => p.b)).sum /
            ((ps.filter (fun p => decide (p.cluster = i))).length : ℚ)⟩
      else cs.getD i ⟨0, 0, 0⟩ := by
  rw [updateStep, rebuildGo_getD _ _ cs 0 i hi, meanAt]
  have hcnt : (accumulate ps (cs.map (fun _ => ⟨0, 0, 0⟩), List.replicate cs.length 0)).2.getD
      (0 + i) 0 = (ps.filter (fun p => decide (p.cluster = i))).length := by
    rw [Nat.zero_add, accumulate_cnts_getD ps _ _ i (by simpa using hi),
      list_getD_replicate _ _ _ _ hi]
    omega
  have hsum : (accumulate ps (cs.map (fun _ => ⟨0, 0, 0⟩), List.replicate cs.length 0)).1.getD
      (0 + i) ⟨0, 0, 0⟩ =
      ⟨((ps.filter (fun p => decide (p.cluster = i))).map (fun p => p.r)).sum,
        ((ps.filter (fun p => decide (p.cluster = i))).map (fun p => p.g)).sum,
        ((ps.filter (fun p => decide (p.cluster = i))).map (fun p => p.b)).sum⟩ := by
    rw [Nat.zero_add, accumulate_sums_getD ps _ _ i (by simpa using hi),
      list_getD_map_const _ _ _ _ hi]
    simp
  rw [hcnt, hsum]

/-- C6: in every update step of the clustering iteration, a centroid with
zero currently-assigned samples keeps all three channel values unchanged
(no reseeding, no zeroing), while a centroid with at least one assigned
sample is set to the component-wise mean of its samples. -/
theorem c6_update_step_frame (ps : List Point) (cs : List RGBColor) (i : ℕ)
    (hi : i < cs.length) :
    ((ps.filter (fun p => decide (p.cluster = i))).length = 0 →
        (updateStep ps cs).getD i ⟨0, 0, 0⟩ = cs.getD i ⟨0, 0, 0⟩) ∧
    (0 < (ps.filter (fun p => decide (p.cluster = i))).length →
        (updateStep ps cs).getD i ⟨0, 0, 0⟩ =
          ⟨((ps.filter (fun p => decide (p.cluster = i))).map (fun p => p.r)).sum /
              ((ps.filter (fun p => decide (p.cluster = i))).length : ℚ),
            ((ps.filter (fun p => decide (p.cluster = i))).map (fun p => p.g)).sum /
              ((ps.filter (fun p => decide (p.cluster = i))).length : ℚ),
            ((ps.filter (fun p => decide (p.cluster = i))).map (fun p => p.b)).sum /
              ((ps.filter (fun p => decide (p.cluster = i))).length : ℚ)⟩) := by
  rw [updateStep_getD ps cs i hi]
  constructor
  · intro h
    rw [if_neg (by omega)]
  · intro h
    rw [if_pos h]

/-- Witness for C6 at a concrete two-centroid state in which centroid 1 has
no assigned sample (so it is kept) and the hypotheses hold by computation. -/
theorem c6_update_step_frame_witness :
    (([(⟨5, 6, 7, 0⟩ : Point)].filter (fun p => decide (p.cluster = 1))).length = 0 →
        (updateStep [⟨5, 6, 7, 0⟩] [⟨1, 1, 1⟩, ⟨2, 2, 2⟩]).getD 1 ⟨0, 0, 0⟩ =
          ([(⟨1, 1, 1⟩ : RGBColor), ⟨2, 2, 2⟩]).getD 1 ⟨0, 0, 0⟩) ∧
    (0 < (([(⟨5, 6, 7, 0⟩ : Point)]).filter (fun p => decide (p.cluster = 1))).length →
        (updateStep [⟨5, 6, 7, 0⟩] [⟨1, 1, 1⟩, ⟨2, 2, 2⟩]).getD 1 ⟨0, 0, 0⟩ =
          ⟨((([(⟨5, 6, 7, 0⟩ : Point)]).filter (fun p => decide (p.cluster = 1))).map
                (fun p => p.r)).sum /
              ((([(⟨5, 6, 7, 0⟩ : Point)]).filter (fun p => decide (p.cluster = 1))).length : ℚ),
            ((([(⟨5, 6, 7, 0⟩ : Point)]).filter (fun p => decide (p.cluster = 1))).map
                (fun p => p.g)).sum /
              ((([(⟨5, 6, 7, 0⟩ : Point)]).filter (fun p => decide (p.cluster = 1))).length : ℚ),
            ((([(⟨5, 6, 7, 0⟩ : Point)]).filter (fun p => decide (p.cluster = 1))).map
                (fun p => p.b)).sum /
              ((([(⟨5, 6, 7, 0⟩ : Point)]).filter (fun p => decide (p.cluster = 1))).length : ℚ)⟩) :=
  c6_update_step_frame [⟨5, 6, 7, 0⟩] [⟨1, 1, 1⟩, ⟨2, 2, 2⟩] 1 (by decide)

theorem bumpCounts_getD : ∀ (ps : List Point) (cnts : List (Option ℚ)),
    (∀ p ∈ ps, p.cluster < cnts.length) →
    (bumpCounts ps cnts).length = cnts.length ∧
    ∀ i, i < cnts.length → ∀ q : ℚ, cnts.getD i none = some q →
      (bumpCounts ps cnts).getD i none =
        some (q + ((ps.filter (fun p => decide (p.cluster = i))).length : ℚ)) := by
  intro ps
  induction ps with
  | nil =>
    intro cnts _
    refine ⟨rfl, ?_⟩
    intro i _ q hq
    simpa [bumpCounts] using hq
  | cons p rest ih =>
    intro cnts h
    have hin : p.cluster < cnts.length := h p (by simp)
    have hset : jsSetExt cnts p.cluster (jadd (jsGet cnts p.cluster) (some 1)) =
        cnts.set p.cluster (jadd (cnts.getD p.cluster none) (some 1)) := by
      rw [jsSetExt, if_pos hin, jsGet]
    have hlen : (cnts.set p.cluster (jadd (cnts.getD p.cluster none) (some 1))).length =
        cnts.length := by simp
    have hrest : ∀ q ∈ rest,
        q.cluster < (cnts.set p.cluster (jadd (cnts.getD p.cluster none) (some 1))).length := by
      intro q hq; rw [hlen]; exact h q (by simp [hq])
    obtain ⟨ihlen, ihval⟩ := ih _ hrest
    constructor
    · rw [bumpCounts, hset, ihlen, hlen]
    · intro i hi q hq
      rw [bumpCounts, hset]
      by_cases hc : p.cluster = i
      · have hq' : (cnts.set p.cluster (jadd (cnts.getD p.cluster none) (some 1))).getD i none =
            some (q + 1) := by
          rw [hc, list_getD_set_self _ _ _ _ hi, hq]
          rfl
        rw [ihval i (by rw [hlen]; exact hi) (q + 1) hq',
          List.filter_cons_of_pos (by simp [hc])]
        simp only [List.length_cons]
        push_cast
        congr 1
        ring
      · have hq' : (cnts.set p.cluster (jadd (cnts.getD p.cluster none) (some 1))).getD i none =
            some q := by
          rw [list_getD_set_ne _ _ _ _ _ hc, hq]
        rw [ihval i (by rw [hlen]; exact hi) q hq',
          List.filter_cons_of_neg (by simpa using hc)]

theorem countClusters_spec (ps : List Point) (k : ℕ) (hcl : ∀ p ∈ ps, p.cluster < k) :
    (countClusters ps k).length = k ∧
    ∀ i, i < k → jsGet (countClusters ps k) i =
      some (((ps.filter (fun p => decide (p.cluster = i))).length : ℚ)) := by
  have hbase : ∀ p ∈ ps, p.cluster < (List.replicate k (some (0 : ℚ))).length := by
    intro p hp; simpa using hcl p hp
  obtain ⟨hlen, hval⟩ := bumpCounts_getD ps (List.replicate k (some 0)) hbase
  constructor
  · rw [countClusters, hlen]; simp
  · intro i hi
    have h0 : (List.replicate k (some (0 : ℚ))).getD i none = some 0 :=
      list_getD_replicate _ _ _ _ hi
    rw [countClusters, jsGet, hval i (by simpa using hi) 0 h0]
    norm_num

theorem buildEntries_length (counts : List (Option ℚ)) (total : ℚ) :
    ∀ (cs : List RGBColor) (i0 : ℕ), (buildEntries counts total cs i0).length = cs.length := by
  intro cs
  induction cs with
  | nil => intro i0; rfl
  | cons c rest ih => intro i0; simp [buildEntries, ih]

theorem mem_buildEntries (counts : List (Option ℚ)) (total : ℚ) :
    ∀ (cs : List RGBColor) (i0 : ℕ) (e : ColorData), e ∈ buildEntries counts total cs i0 →
    ∃ j, j < cs.length ∧ e.count = jsGet counts (i0 + j) ∧
      e.percentage = jmul (jdiv (jsGet counts (i0 + j)) (some total)) (some 100) := by
  intro cs
  induction cs with
  | nil => intro i0 e he; simp [buildEntries] at he
  | cons c rest ih =>
    intro i0 e he
    rw [buildEntries] at he
    rcases List.mem_cons.mp he with he | he
    · exact ⟨0, by simp, by simp [he], by simp [he]⟩
    · obtain ⟨j, hj, hc, hp⟩ := ih (i0 + 1) e he
      refine ⟨j + 1, by simpa using Nat.succ_lt_succ hj, ?_, ?_⟩
      · have harith : i0 + (j + 1) = i0 + 1 + j := by omega
        rw [harith]
        exact hc
      · have harith : i0 + (j + 1) = i0 + 1 + j := by omega
        rw [harith]
        exact hp

theorem buildEntries_counts_sum (counts : List (Option ℚ)) (total : ℚ) :
    ∀ (cs : List RGBColor) (i0 : ℕ),
    ((buildEntries counts total cs i0).map (fun e => e.count.getD 0)).sum =
      ((List.range' i0 cs.length).map (fun i => (jsGet counts i).getD 0)).sum := by
  intro cs
  induction cs with
  | nil => intro i0; rfl
  | cons c rest ih =>
    intro i0
    rw [buildEntries]
    simp only [List.length_cons, List.range'_succ, List.map_cons, List.sum_cons]
    rw [ih (i0 + 1)]

theorem delta_sum : ∀ (k c : ℕ), c < k →
    ((List.range k).map (fun i => if c = i then (1 : ℚ) else 0)).sum = 1 := by
  intro k
  induction k with
  | zero => intro c h; omega
  | succ m ih =>
    intro c h
    rw [List.range_succ, List.map_append, List.sum_append]
    by_cases hc : c = m
    · have hzero : ((List.range m).map (fun i => if c = i then (1 : ℚ) else 0)).sum = 0 := by
        apply List.sum_eq_zero
        intro x hx
        obtain ⟨i, hi, rfl⟩ := List.mem_map.mp hx
        have : i < m := List.mem_range.mp hi
        rw [if_neg (by omega)]
      rw [hzero]
      simp [hc]
    · rw [ih c (by omega)]
      simp [hc]

theorem hist_sum (k : ℕ) : ∀ (ps : List Point), (∀ p ∈ ps, p.cluster < k) →
    ((List.range k).map
        (fun i => (((ps.filter (fun p => decide (p.cluster = i))).length : ℚ)))).sum =
      (ps.length : ℚ) := by
  intro ps
  induction ps with
  | nil => intro _; simp
  | cons p rest ih =>
    intro h
    have hps : ∀ q ∈ rest, q.cluster < k := fun q hq => h q (by simp [hq])
    have hsplit : (List.range k).map
          (fun i => (((p :: rest).filter (fun q => decide (q.cluster = i))).length : ℚ)) =
        (List.range k).map (fun i => (if p.cluster = i then (1 : ℚ) else 0) +
          (((rest.filter (fun q => decide (q.cluster = i))).length : ℚ))) := by
      apply List.map_congr_left
      intro i _
      by_cases hc : p.cluster = i
      · rw [List.filter_cons_of_pos (by simp [hc]), if_pos hc]
        simp only [List.length_cons]
        push_cast
        ring
      · rw [List.filter_cons_of_neg (by simpa using hc), if_neg hc]
        ring
    rw [hsplit, list_sum_map_add, delta_sum k p.cluster (h p (by simp)), ih hps]
    simp only [List.length_cons]
    push_cast
    ring

theorem kMeans_char (points : List Point) (k : ℤ) (rand : ℕ → ℚ) (fuel : ℕ)
    (hne : points ≠ []) (hfuel : 0 < fuel) :
    ∃ csStar : List RGBColor,
      csStar.length = (min k (points.length : ℤ) - 1).toNat + 1 ∧
      (kMeans points k rand fuel).1 = assignAll csStar points ∧
      (kMeans points k rand fuel).2.length = (min k (points.length : ℤ) - 1).toNat + 1 := by
  have hpos : 0 < points.length := List.length_pos.mpr hne
  rw [kMeans, if_pos hpos]
  obtain ⟨csStar, hlen, hchar⟩ :=
    kmeansLoop_points_char fuel points (seedCentroids points k rand) hfuel
  exact ⟨csStar, by rw [hlen, seedCentroids_length], hchar,
    by rw [kmeansLoop_cs_length, seedCentroids_length]⟩

/-- On the clustering path (at least one eligible sample, requested count at
least 1) the result of `extractColorsCore` is the sorted, zero-filtered entry
list built from the histogram of the final assignment against one fixed
centroid list `csStar` of effective size `min K n`. -/
theorem core_char (data : List RGBA) (K : ℤ) (rand : ℕ → ℚ)
    (hne : samplePoints data ≠ []) (hK : 1 ≤ K) :
    ∃ csStar : List RGBColor,
      csStar ≠ [] ∧
      csStar.length = (min K ((samplePoints data).length : ℤ)).toNat ∧
      (kMeans (samplePoints data) (min K ((samplePoints data).length : ℤ)) rand 100).2.length =
        (min K ((samplePoints data).length : ℤ)).toNat ∧
      extractColorsCore data K rand = Except.ok (sortColors (List.filter (fun c => jgt0 c.count)
        (buildEntries
          (countClusters (assignAll csStar (samplePoints data))
            (min K ((samplePoints data).length : ℤ)).toNat)
          ((samplePoints data).length : ℚ)
          (kMeans (samplePoints data) (min K ((samplePoints data).length : ℤ)) rand 100).2
          0))) := by
  have hpos : 0 < (samplePoints data).length := List.length_pos.mpr hne
  have hkmin : 1 ≤ min K ((samplePoints data).length : ℤ) :=
    le_min hK (by exact_mod_cast hpos)
  obtain ⟨csStar, hlen, hchar, hcs2len⟩ :=
    kMeans_char (samplePoints data) (min K ((samplePoints data).length : ℤ)) rand 100 hne
      (by omega)
  have hminmin : min (min K ((samplePoints data).length : ℤ)) ((samplePoints data).length : ℤ) =
      min K ((samplePoints data).length : ℤ) := min_eq_left (min_le_right _ _)
  rw [hminmin] at hlen hcs2len
  have htoNat : (min K ((samplePoints data).length : ℤ) - 1).toNat + 1 =
      (min K ((samplePoints data).length : ℤ)).toNat := by omega
  rw [htoNat] at hlen hcs2len
  refine ⟨csStar, ?_, hlen, hcs2len, ?_⟩
  · have : 0 < csStar.length := by omega
    exact List.length_pos.mp this
  · rw [extractColorsCore, if_neg (by omega), if_neg (by omega), hchar]

theorem jsumCounts_eq_sum : ∀ (l : List ColorData),
    (∀ e ∈ l, ∃ q : ℚ, e.count = some q) →
    jsumCounts l = some ((l.map (fun e => e.count.getD 0)).sum) := by
  intro l
  induction l with
  | nil => intro _; rfl
  | cons a t ih =>
    intro h
    obtain ⟨q, hq⟩ := h a (by simp)
    rw [jsumCounts, List.foldr_cons]
    have ht : jsumCounts t = some ((t.map (fun e => e.count.getD 0)).sum) :=
      ih (fun e he => h e (by simp [he]))
    rw [jsumCounts] at ht
    rw [ht, hq, jadd]
    simp [hq]

theorem filter_jgt0_sum : ∀ (l : List ColorData),
    (∀ e ∈ l, ∃ n : ℕ, e.count = some ((n : ℚ))) →
    ((l.filter (fun c => jgt0 c.count)).map (fun e => e.count.getD 0)).sum =
      (l.map (fun e => e.count.getD 0)).sum := by
  intro l
  induction l with
  | nil => intro _; rfl
  | cons a t ih =>
    intro h
    have ht := ih (fun e he => h e (by simp [he]))
    by_cases ha : jgt0 a.count = true
    · rw [List.filter_cons_of_pos (by simpa using ha)]
      simp only [List.map_cons, List.sum_cons]
      rw [ht]
    · rw [List.filter_cons_of_neg (by simpa using ha)]
      obtain ⟨n, hn⟩ := h a (by simp)
      have hnpos : ¬ (0 : ℚ) < (n : ℚ) := by
        intro hpos
        apply ha
        rw [hn]
        simpa [jgt0] using hpos
      have hn00 : n = 0 := by
        have h2 : ¬ 0 < n := fun hc => hnpos (by exact_mod_cast hc)
        omega
      rw [ht]
      simp only [List.map_cons, List.sum_cons]
      rw [hn, hn00]
      simp

theorem mem_sortColors (e : ColorData) (l : List ColorData) :
    e ∈ sortColors l ↔ e ∈ l :=
  (List.perm_insertionSort byCountDesc l).mem_iff

theorem sortColors_map_sum (f : ColorData → ℚ) (l : List ColorData) :
    ((sortColors l).map f).sum = (l.map f).sum :=
  ((List.perm_insertionSort byCountDesc l).map f).sum_eq

/-- On the clustering path the returned counts are all rationals and sum to
the eligible-sample total (shared fact behind several claims). -/
theorem extractColors_sum_counts (data : List RGBA) (K : ℤ) (rand : ℕ → ℚ)
    (colors : List ColorData)
    (hne : samplePoints data ≠ []) (hK : 1 ≤ K)
    (hok : extractColorsCore data K rand = Except.ok colors) :
    jsumCounts colors = some (((samplePoints data).length : ℚ)) := by
  obtain ⟨csStar, hcsne, hcslen, hcflen, hcore⟩ := core_char data K rand hne hK
  have hcolors : colors = sortColors (List.filter (fun c => jgt0 c.count)
      (buildEntries (countClusters (assignAll csStar (samplePoints data))
          (min K ((samplePoints data).length : ℤ)).toNat)
        ((samplePoints data).length : ℚ)
        (kMeans (samplePoints data) (min K ((samplePoints data).length : ℤ)) rand 100).2 0)) :=
    Except.ok.inj (hok.symm.trans hcore)
  set pts := samplePoints data with hpts
  set kN := (min K (pts.length : ℤ)).toNat with hkN
  set csF := (kMeans pts (min K (pts.length : ℤ)) rand 100).2 with hcsF
  set cnts := countClusters (assignAll csStar pts) kN with hcnts
  set entries := buildEntries cnts (pts.length : ℚ) csF 0 with hentries
  have hcl : ∀ p ∈ assignAll csStar pts, p.cluster < kN := by
    intro p hp
    obtain ⟨q, hq, rfl⟩ := List.mem_map.mp hp
    calc (assignPoint csStar q).cluster = nearestCluster csStar q := rfl
      _ < csStar.length := nearestCluster_lt csStar q hcsne
      _ = kN := hcslen
  obtain ⟨hclen, hcval⟩ := countClusters_spec (assignAll csStar pts) kN hcl
  have hnat : ∀ e ∈ entries, ∃ n : ℕ, e.count = some ((n : ℚ)) := by
    intro e he
    obtain ⟨j, hj, hc, _⟩ := mem_buildEntries cnts (pts.length : ℚ) csF 0 e he
    rw [Nat.zero_add] at hc
    refine ⟨(List.filter (fun p => decide (p.cluster = j)) (assignAll csStar pts)).length, ?_⟩
    rw [hc, hcval j (by rw [← hcflen]; exact hj)]
  have hsum : ((sortColors (entries.filter (fun c => jgt0 c.count))).map
      (fun e => e.count.getD 0)).sum = (pts.length : ℚ) := by
    rw [sortColors_map_sum, filter_jgt0_sum _ hnat, hentries, buildEntries_counts_sum,
      ← List.range_eq_range']
    have hcongr : (List.range csF.length).map (fun i => (jsGet cnts i).getD 0) =
        (List.range csF.length).map (fun i =>
          (((assignAll csStar pts).filter (fun p => decide (p.cluster = i))).length : ℚ)) := by
      apply List.map_congr_left
      intro i hi
      rw [hcval i (by rw [← hcflen]; exact List.mem_range.mp hi)]
      rfl
    rw [hcongr, hcflen, hist_sum kN (assignAll csStar pts) hcl]
    simp [assignAll]
  have hex : ∀ e ∈ sortColors (entries.filter (fun c => jgt0 c.count)),
      ∃ q : ℚ, e.count = some q := by
    intro e he
    obtain ⟨n, hn⟩ := hnat e (List.mem_of_mem_filter ((mem_sortColors e _).mp he))
    exact ⟨(n : ℚ), hn⟩
  rw [hcolors, jsumCounts_eq_sum _ hex, hsum]

/-- C2: with at least one eligible sample and requested K at least 1, the sum
of the `count` fields over the returned palette entries is exactly the number
of eligible samples (every sample lands in exactly one cluster bucket, the
zero-count clusters that the filter removes contribute nothing, and no count
is a non-number). -/
theorem c2_counts_sum_eq_total (data : List RGBA) (K : ℤ) (rand : ℕ → ℚ)
    (colors : List ColorData)
    (hne : samplePoints data ≠ []) (hK : 1 ≤ K)
    (hok : extractColorsCore data K rand = Except.ok colors) :
    jsumCounts colors = some (((samplePoints data).length : ℚ)) :=
  extractColors_sum_counts data K rand colors hne hK hok

/-- Witness for C2 on a concrete two-pixel image with K 2: the returned counts
sum to the 2 eligible samples. -/
theorem c2_counts_sum_eq_total_witness :
    samplePoints [(⟨0, 0, 0, 255⟩ : RGBA), ⟨10, 10, 10, 255⟩] ≠ [] ∧ (1 : ℤ) ≤ 2 ∧
      jsumCounts [⟨"#000000", some 2, some 100⟩] =
        some (((samplePoints [(⟨0, 0, 0, 255⟩ : RGBA), ⟨10, 10, 10, 255⟩]).length : ℚ)) :=
  ⟨by decide, by decide,
    c2_counts_sum_eq_total [⟨0, 0, 0, 255⟩, ⟨10, 10, 10, 255⟩] 2 (fun _ => 0)
      [⟨"#000000", some 2, some 100⟩] (by decide) (by decide) (by decide!)⟩

theorem samplePoints_cluster_zero (data : List RGBA) :
    ∀ p ∈ samplePoints data, p.cluster = 0 := by
  intro p hp
  rw [samplePoints] at hp
  obtain ⟨px, _, hpp⟩ := List.mem_filterMap.mp hp
  rw [pixelToPoint] at hpp
  by_cases ha : px.a < 128
  · rw [if_pos ha] at hpp
    exact absurd hpp (by simp)
  · rw [if_neg ha] at hpp
    rw [← Option.some.inj hpp]

theorem bumpCounts_keep_none : ∀ (ps : List Point), (∀ p ∈ ps, p.cluster = 0) →
    bumpCounts ps [none] = [none] := by
  intro ps
  induction ps with
  | nil => intro _; rfl
  | cons p rest ih =>
    intro h
    rw [bumpCounts, h p (by simp)]
    exact ih (fun q hq => h q (by simp [hq]))

theorem bumpCounts_all_zero : ∀ (ps : List Point), (∀ p ∈ ps, p.cluster = 0) → ps ≠ [] →
    bumpCounts ps (List.replicate 0 (some 0)) = [none] := by
  intro ps hcl hne
  match ps with
  | [] => exact absurd rfl hne
  | p :: rest =>
    rw [List.replicate, bumpCounts, hcl p (by simp)]
    exact bumpCounts_keep_none rest (fun q hq => hcl q (by simp [hq]))

theorem kMeans_min_zero (points : List Point) (k : ℤ) (rand : ℕ → ℚ)
    (hpos : 0 < points.length) (hk : min k (points.length : ℤ) = 0)
    (hcl : ∀ p ∈ points, p.cluster = 0) :
    ∃ c0 : RGBColor, kMeans points k rand 100 = (assignAll [c0] points, [c0]) := by
  refine ⟨pointRGB (points.getD (⌊rand 0 * ((points.length : ℚ))⌋).toNat ⟨0, 0, 0, 0⟩), ?_⟩
  rw [kMeans, if_pos hpos, seedCentroids]
  have hfuel : (min k (points.length : ℤ) - 1).toNat = 0 := by omega
  rw [hfuel, seedExtras]
  set c0 := pointRGB (points.getD (⌊rand 0 * ((points.length : ℚ))⌋).toNat ⟨0, 0, 0, 0⟩) with hc0
  have hch : anyChanged [c0] points = false := by
    rw [anyChanged, List.any_eq_false]
    intro p hp
    have h0 : nearestCluster [c0] p = 0 := rfl
    rw [h0, hcl p hp]
    simp
  have hunfold : kmeansLoop 100 points [c0] =
      if anyChanged [c0] points = true then
        kmeansLoop 99 (assignAll [c0] points) (updateStep (assignAll [c0] points) [c0])
      else (assignAll [c0] points, [c0]) := rfl
  rw [hunfold, if_neg (by rw [hch]; simp)]

theorem core_k_eq_zero (data : List RGBA) (K : ℤ) (rand : ℕ → ℚ)
    (hne : samplePoints data ≠ [])
    (hmin : min K ((samplePoints data).length : ℤ) = 0) :
    extractColorsCore data K rand = Except.ok [] := by
  have hpos : 0 < (samplePoints data).length := List.length_pos.mpr hne
  obtain ⟨c0, hkm⟩ :=
    kMeans_min_zero (samplePoints data) (min K ((samplePoints data).length : ℤ)) rand hpos
      (by omega) (samplePoints_cluster_zero data)
  rw [extractColorsCore, if_neg (by omega), if_neg (by omega), hkm, hmin]
  have hassigncl : ∀ p ∈ assignAll [c0] (samplePoints data), p.cluster = 0 := by
    intro p hp
    obtain ⟨q, _, rfl⟩ := List.mem_map.mp hp
    rfl
  have hassignne : assignAll [c0] (samplePoints data) ≠ [] := by
    rw [assignAll]
    simpa using hne
  have hcnt : countClusters (assignAll [c0] (samplePoints data)) (Int.toNat 0) = [none] := by
    rw [countClusters]
    exact bumpCounts_all_zero _ hassigncl hassignne
  rw [hcnt]
  rfl

/-- C1 counterexample: on a one-opaque-pixel image with requested color count
0, `extractColors` does not reject; it resolves with an empty palette. -/
theorem c1_claim_counterexample :
    extractColorsCore [⟨10, 20, 30, 255⟩] 0 (fun _ => 0) = Except.ok [] := by decide!

/-- C1 amended: with at least one eligible sample, a negative requested K
rejects, but only with the `RangeError` thrown by `new Array(k)` (no
purpose-written validation error), while K equal to 0 does not reject at all:
the call resolves with an empty palette (the single seeded centroid's count
is the non-number, which the zero-count filter removes). -/
theorem c1_amended_degenerate_k (data : List RGBA) (rand : ℕ → ℚ)
    (hne : samplePoints data ≠ []) :
    (∀ K : ℤ, K < 0 → extractColorsCore data K rand =
      Except.error "RangeError: Invalid array length") ∧
    extractColorsCore data 0 rand = Except.ok [] := by
  have hpos : 0 < (samplePoints data).length := List.length_pos.mpr hne
  constructor
  · intro K hK
    rw [extractColorsCore, if_neg (by omega), if_pos (by omega)]
  · exact core_k_eq_zero data 0 rand hne (by omega)

/-- Witness for the amended C1 at a concrete one-pixel input with K -1 and 0. -/
theorem c1_amended_degenerate_k_witness :
    samplePoints [(⟨1, 2, 3, 255⟩ : RGBA)] ≠ [] ∧
    extractColorsCore [⟨1, 2, 3, 255⟩] (-1) (fun _ => 0) =
      Except.error "RangeError: Invalid array length" ∧
    extractColorsCore [⟨1, 2, 3, 255⟩] 0 (fun _ => 0) = Except.ok [] :=
  ⟨by decide,
    (c1_amended_degenerate_k [⟨1, 2, 3, 255⟩] (fun _ => 0) (by decide)).1 (-1) (by decide),
    (c1_amended_degenerate_k [⟨1, 2, 3, 255⟩] (fun _ => 0) (by decide)).2⟩

theorem nearestCluster_eq_rgb (cs : List RGBColor) (q : Point) :
    nearestCluster cs q = nearestClusterRGB cs (q.r, q.g, q.b) := rfl

theorem filter_buildEntries_length (counts : List (Option ℚ)) (total : ℚ) :
    ∀ (cs : List RGBColor) (i0 : ℕ),
    ((buildEntries counts total cs i0).filter (fun c => jgt0 c.count)).length =
      ((List.range' i0 cs.length).filter (fun i => jgt0 (jsGet counts i))).length := by
  intro cs
  induction cs with
  | nil => intro i0; rfl
  | cons c rest ih =>
    intro i0
    rw [buildEntries]
    simp only [List.length_cons, List.range'_succ]
    by_cases hp : jgt0 (jsGet counts i0) = true
    · rw [List.filter_cons_of_pos (by simpa using hp), List.filter_cons_of_pos (by simpa using hp)]
      simp only [List.length_cons]
      rw [ih (i0 + 1)]
    · rw [List.filter_cons_of_neg (by simpa using hp), List.filter_cons_of_neg (by simpa using hp)]
      rw [ih (i0 + 1)]

/-- C3 counterexample: on a fully transparent one-pixel image with requested
K 6, the palette has one entry (the white fallback) while the number of
distinct sample colors is 0, so "at most the number of distinct sample
colors" fails for the empty sample set. -/
theorem c3_claim_counterexample :
    extractColorsCore [⟨0, 0, 0, 0⟩] 6 (fun _ => 0) =
      Except.ok [⟨"#FFFFFF", some 1, some 100⟩] ∧
    distinctColorCount [⟨0, 0, 0, 0⟩] = 0 ∧ (1 : ℤ) ≤ 6 := by
  refine ⟨by decide!, by decide!, by decide⟩

/-- C3 amended: when at least one eligible sample exists (the fallback path
excluded), the number of returned entries is at least 1, at most the
requested K, and at most the number of distinct sample colors. -/
theorem c3_amended_entry_count_bounds (data : List RGBA) (K : ℤ) (rand : ℕ → ℚ)
    (colors : List ColorData)
    (hne : samplePoints data ≠ []) (hK : 1 ≤ K)
    (hok : extractColorsCore data K rand = Except.ok colors) :
    1 ≤ colors.length ∧ (colors.length : ℤ) ≤ K ∧
      colors.length ≤ distinctColorCount data := by
  have hpos : 0 < (samplePoints data).length := List.length_pos.mpr hne
  have hkmin : 1 ≤ min K ((samplePoints data).length : ℤ) :=
    le_min hK (by exact_mod_cast hpos)
  obtain ⟨csStar, hcsne, hcslen, hcflen, hcore⟩ := core_char data K rand hne hK
  have hcolors : colors = sortColors (List.filter (fun c => jgt0 c.count)
      (buildEntries (countClusters (assignAll csStar (samplePoints data))
          (min K ((samplePoints data).length : ℤ)).toNat)
        ((samplePoints data).length : ℚ)
        (kMeans (samplePoints data) (min K ((samplePoints data).length : ℤ)) rand 100).2 0)) :=
    Except.ok.inj (hok.symm.trans hcore)
  set pts := samplePoints data with hpts
  set kN := (min K (pts.length : ℤ)).toNat with hkN
  set csF := (kMeans pts (min K (pts.length : ℤ)) rand 100).2 with hcsF
  set cnts := countClusters (assignAll csStar pts) kN with hcnts
  have hcl : ∀ p ∈ assignAll csStar pts, p.cluster < kN := by
    intro p hp
    obtain ⟨q, hq, rfl⟩ := List.mem_map.mp hp
    calc (assignPoint csStar q).cluster = nearestCluster csStar q := rfl
      _ < csStar.length := nearestCluster_lt csStar q hcsne
      _ = kN := hcslen
  obtain ⟨hclen, hcval⟩ := countClusters_spec (assignAll csStar pts) kN hcl
  have hlencolors : colors.length =
      ((List.range kN).filter (fun i => jgt0 (jsGet cnts i))).length := by
    rw [hcolors, sortColors, (List.perm_insertionSort byCountDesc _).length_eq,
      filter_buildEntries_length, hcflen, List.range_eq_range']
  have hkNZ : (kN : ℤ) = min K (pts.length : ℤ) := Int.toNat_of_nonneg (by omega)
  refine ⟨?_, ?_, ?_⟩
  · have hsum := extractColors_sum_counts data K rand colors hne hK hok
    match colors with
    | [] =>
      have : jsumCounts [] = some ((0 : ℚ)) := rfl
      rw [this] at hsum
      have h0 : ((0 : ℚ)) = ((pts.length : ℚ)) := Option.some.inj hsum
      have : (pts.length : ℚ) ≠ 0 := by
        exact_mod_cast Nat.pos_iff_ne_zero.mp hpos
      exact absurd h0.symm this
    | _ :: _ => simp
  · have h1 : colors.length ≤ kN := by
      rw [hlencolors]
      calc ((List.range kN).filter (fun i => jgt0 (jsGet cnts i))).length
          ≤ (List.range kN).length := List.length_filter_le _ _
        _ = kN := List.length_range kN
    omega
  · set f : ℚ × ℚ × ℚ → ℕ := nearestClusterRGB csStar with hf
    set ptsColors := pts.map (fun p => (p.r, p.g, p.b)) with hptsColors
    have hsubset : ∀ i ∈ (List.range kN).filter (fun i => jgt0 (jsGet cnts i)),
        i ∈ ptsColors.dedup.map f := by
      intro i hi
      obtain ⟨hir, hipred⟩ := List.mem_filter.mp hi
      have hik : i < kN := List.mem_range.mp hir
      have hjs := hcval i hik
      rw [hjs] at hipred
      have hpos' : 0 <
          ((assignAll csStar pts).filter (fun p => decide (p.cluster = i))).length := by
        by_contra hzero
        have hzero' : ((assignAll csStar pts).filter
            (fun p => decide (p.cluster = i))).length = 0 := by omega
        rw [jgt0, hzero'] at hipred
        simp at hipred
      obtain ⟨p, hpmem⟩ := List.exists_mem_of_length_pos hpos'
      obtain ⟨hpin, hpcl⟩ := List.mem_filter.mp hpmem
      have hpcl' : p.cluster = i := by simpa using hpcl
      obtain ⟨q, hq, rfl⟩ := List.mem_map.mp hpin
      have : i = f (q.r, q.g, q.b) := by
        rw [← hpcl']
        exact nearestCluster_eq_rgb csStar q
      rw [this]
      apply List.mem_map_of_mem
      exact List.mem_dedup.mpr (List.mem_map_of_mem _ hq)
    have hnodup : ((List.range kN).filter (fun i => jgt0 (jsGet cnts i))).Nodup :=
      (List.nodup_range kN).filter _
    have hcard : ((List.range kN).filter (fun i => jgt0 (jsGet cnts i))).length ≤
        (ptsColors.dedup.map f).length := by
      have e1 : ((List.range kN).filter (fun i => jgt0 (jsGet cnts i))).length =
          ((List.range kN).filter (fun i => jgt0 (jsGet cnts i))).toFinset.card :=
        (List.toFinset_card_of_nodup hnodup).symm
      have e2 : ((List.range kN).filter (fun i => jgt0 (jsGet cnts i))).toFinset ⊆
          (ptsColors.dedup.map f).toFinset := by
        intro x hx
        exact List.mem_toFinset.mpr (hsubset x (List.mem_toFinset.mp hx))
      calc ((List.range kN).filter (fun i => jgt0 (jsGet cnts i))).length
          = ((List.range kN).filter (fun i => jgt0 (jsGet cnts i))).toFinset.card := e1
        _ ≤ (ptsColors.dedup.map f).toFinset.card := Finset.card_le_card e2
        _ ≤ (ptsColors.dedup.map f).length := List.toFinset_card_le _
    rw [hlencolors]
    calc ((List.range kN).filter (fun i => jgt0 (jsGet cnts i))).length
        ≤ (ptsColors.dedup.map f).length := hcard
      _ = ptsColors.dedup.length := List.length_map _ _
      _ = distinctColorCount data := rfl

/-- Witness for the amended C3 on a concrete two-color image with K 2. -/
theorem c3_amended_entry_count_bounds_witness :
    samplePoints [(⟨0, 0, 0, 255⟩ : RGBA), ⟨9, 9, 9, 255⟩] ≠ [] ∧ (1 : ℤ) ≤ 2 ∧
      (1 ≤ [(⟨"#000000", some 2, some 100⟩ : ColorData)].length ∧
        (([(⟨"#000000", some 2, some 100⟩ : ColorData)].length : ℤ)) ≤ 2 ∧
        [(⟨"#000000", some 2, some 100⟩ : ColorData)].length ≤
          distinctColorCount [⟨0, 0, 0, 255⟩, ⟨9, 9, 9, 255⟩]) :=
  ⟨by decide, by decide,
    c3_amended_entry_count_bounds [⟨0, 0, 0, 255⟩, ⟨9, 9, 9, 255⟩] 2 (fun _ => 0)
      [⟨"#000000", some 2, some 100⟩] (by decide) (by decide) (by decide!)⟩

theorem sortColors_sorted (l : List ColorData) :
    List.Sorted byCountDesc (sortColors l) :=
  List.sorted_insertionSort byCountDesc l

/-- C7: every palette that `extractColors` resolves with is sorted by
non-increasing count, every entry's count is a positive integer (zero-count
entries never appear), and every percentage is a rational in `[0, 100]`. -/
theorem c7_palette_sorted_positive (data : List RGBA) (K : ℤ) (rand : ℕ → ℚ)
    (colors : List ColorData)
    (hok : extractColorsCore data K rand = Except.ok colors) :
    List.Sorted byCountDesc colors ∧
    (∀ e ∈ colors, ∃ n : ℕ, 0 < n ∧ e.count = some ((n : ℚ))) ∧
    (∀ e ∈ colors, ∃ q : ℚ, e.percentage = some q ∧ 0 ≤ q ∧ q ≤ 100) := by
  by_cases hemp : (samplePoints data).length = 0
  · rw [extractColorsCore, if_pos hemp] at hok
    have hc : colors = [⟨"#FFFFFF", some 1, some 100⟩] := (Except.ok.inj hok).symm
    rw [hc]
    refine ⟨List.sorted_singleton _, ?_, ?_⟩
    · intro e he
      rw [List.mem_singleton.mp he]
      exact ⟨1, by norm_num, by norm_num⟩
    · intro e he
      rw [List.mem_singleton.mp he]
      exact ⟨100, rfl, by norm_num, by norm_num⟩
  · have hne : samplePoints data ≠ [] := by
      intro h
      exact hemp (by rw [h]; rfl)
    by_cases hk0 : min K ((samplePoints data).length : ℤ) < 0
    · rw [extractColorsCore, if_neg hemp, if_pos hk0] at hok
      exact absurd hok (by simp)
    · by_cases hkz : min K ((samplePoints data).length : ℤ) = 0
      · rw [core_k_eq_zero data K rand hne hkz] at hok
        have hc : colors = [] := (Except.ok.inj hok).symm
        rw [hc]
        exact ⟨List.sorted_nil, by simp, by simp⟩
      · have hpos : 0 < (samplePoints data).length := List.length_pos.mpr hne
        have hkmin : 1 ≤ min K ((samplePoints data).length : ℤ) := by omega
        have hK : 1 ≤ K := le_trans hkmin (min_le_left _ _)
        obtain ⟨csStar, hcsne, hcslen, hcflen, hcore⟩ := core_char data K rand hne hK
        have hcolors : colors = sortColors (List.filter (fun c => jgt0 c.count)
            (buildEntries (countClusters (assignAll csStar (samplePoints data))
                (min K ((samplePoints data).length : ℤ)).toNat)
              ((samplePoints data).length : ℚ)
              (kMeans (samplePoints data)
                (min K ((samplePoints data).length : ℤ)) rand 100).2 0)) :=
          Except.ok.inj (hok.symm.trans hcore)
        set pts := samplePoints data with hpts
        set kN := (min K (pts.length : ℤ)).toNat with hkN
        set csF := (kMeans pts (min K (pts.length : ℤ)) rand 100).2 with hcsF
        set cnts := countClusters (assignAll csStar pts) kN with hcnts
        have hcl : ∀ p ∈ assignAll csStar pts, p.cluster < kN := by
          intro p hp
          obtain ⟨q, hq, rfl⟩ := List.mem_map.mp hp
          calc (assignPoint csStar q).cluster = nearestCluster csStar q := rfl
            _ < csStar.length := nearestCluster_lt csStar q hcsne
            _ = kN := hcslen
        obtain ⟨hclen, hcval⟩ := countClusters_spec (assignAll csStar pts) kN hcl
        rw [← hcnts] at hcval
        have hmem : ∀ e ∈ colors, ∃ j, j < kN ∧ jgt0 e.count = true ∧
            e.count = jsGet cnts j ∧
            e.percentage = jmul (jdiv (jsGet cnts j) (some ((pts.length : ℚ)))) (some 100) := by
          intro e he
          rw [hcolors] at he
          have he2 := (mem_sortColors e _).mp he
          obtain ⟨hein, hepred⟩ := List.mem_filter.mp he2
          obtain ⟨j, hj, hc, hp⟩ := mem_buildEntries cnts ((pts.length : ℚ)) csF 0 e hein
          rw [Nat.zero_add] at hc hp
          exact ⟨j, by rw [← hcflen]; exact hj, by simpa using hepred, hc, hp⟩
        refine ⟨by rw [hcolors]; exact sortColors_sorted _, ?_, ?_⟩
        · intro e he
          obtain ⟨j, hjk, hegt, hc, _⟩ := hmem e he
          rw [hcval j hjk] at hc
          refine ⟨((assignAll csStar pts).filter (fun p => decide (p.cluster = j))).length,
            ?_, hc⟩
          rw [hc] at hegt
          by_contra hzero
          have hz : ((assignAll csStar pts).filter
              (fun p => decide (p.cluster = j))).length = 0 := by omega
          rw [jgt0, hz] at hegt
          simp at hegt
        · intro e he
          obtain ⟨j, hjk, hegt, hc, hp⟩ := hmem e he
          have htot : ((pts.length : ℚ)) ≠ 0 := by
            exact_mod_cast Nat.pos_iff_ne_zero.mp hpos
          set m := ((assignAll csStar pts).filter (fun p => decide (p.cluster = j))).length
            with hm
          have hmle : m ≤ pts.length := by
            calc m ≤ (assignAll csStar pts).length := List.length_filter_le _ _
              _ = pts.length := by rw [assignAll, List.length_map]
          rw [hcval j hjk] at hp
          rw [jdiv, if_neg htot, jmul] at hp
          refine ⟨(m : ℚ) / ((pts.length : ℚ)) * 100, hp, ?_, ?_⟩
          · positivity
          · have hdivle : (m : ℚ) / ((pts.length : ℚ)) ≤ 1 := by
              rw [div_le_one (by positivity)]
              exact_mod_cast hmle
            calc (m : ℚ) / ((pts.length : ℚ)) * 100 ≤ 1 * 100 := by
                  exact mul_le_mul_of_nonneg_right hdivle (by norm_num)
              _ = 100 := by norm_num

/-- Witness for C7 at a concrete one-pixel input with K 1. -/
theorem c7_palette_sorted_positive_witness :
    extractColorsCore [⟨10, 20, 30, 255⟩] 1 (fun _ => 0) =
      Except.ok [⟨"#0A141E", some 1, some 100⟩] ∧
    (List.Sorted byCountDesc [(⟨"#0A141E", some 1, some 100⟩ : ColorData)] ∧
      (∀ e ∈ [(⟨"#0A141E", some 1, some 100⟩ : ColorData)],
        ∃ n : ℕ, 0 < n ∧ e.count = some ((n : ℚ))) ∧
      (∀ e ∈ [(⟨"#0A141E", some 1, some 100⟩ : ColorData)],
        ∃ q : ℚ, e.percentage = some q ∧ 0 ≤ q ∧ q ≤ 100)) :=
  ⟨by decide!,
    c7_palette_sorted_positive [⟨10, 20, 30, 255⟩] 1 (fun _ => 0)
      [⟨"#0A141E", some 1, some 100⟩] (by decide!)⟩

/-- Sample channels within the 8-bit range, as a proposition. -/
def pB (p : Point) : Prop :=
  0 ≤ p.r ∧ p.r ≤ 255 ∧ 0 ≤ p.g ∧ p.g ≤ 255 ∧ 0 ≤ p.b ∧ p.b ≤ 255

/-- Centroid channels within the 8-bit range, as a proposition. -/
def cB (c : RGBColor) : Prop :=
  0 ≤ c.r ∧ c.r ≤ 255 ∧ 0 ≤ c.g ∧ c.g ≤ 255 ∧ 0 ≤ c.b ∧ c.b ≤ 255

theorem pointInRange_iff (p : Point) : pointInRange p = true ↔ pB p := by
  rw [pointInRange, pB]
  simp [and_assoc]

theorem centroidInRange_iff (c : RGBColor) : centroidInRange c = true ↔ cB c := by
  rw [centroidInRange, cB]
  simp [and_assoc]

theorem getD_point_bounds (points : List Point) (hpts : ∀ p ∈ points, pB p) (i : ℕ) :
    pB (points.getD i ⟨0, 0, 0, 0⟩) := by
  rcases list_getD_mem_or_eq points i ⟨0, 0, 0, 0⟩ with hmem | heq
  · exact hpts _ hmem
  · rw [heq]
    refine ⟨by norm_num, by norm_num, by norm_num, by norm_num, by norm_num, by norm_num⟩

theorem pointRGB_bounds (p : Point) (hp : pB p) : cB (pointRGB p) := hp

theorem seedStep_bounds (points : List Point) (rand : ℕ → ℚ) (cs : List RGBColor)
    (hpts : ∀ p ∈ points, pB p) (hcs : ∀ c ∈ cs, cB c) :
    ∀ c ∈ seedStep points rand cs, cB c := by
  intro c hc
  rw [seedStep] at hc
  rcases List.mem_append.mp hc with hm | hm
  · exact hcs c hm
  · rw [List.mem_singleton.mp hm]
    exact pointRGB_bounds _ (getD_point_bounds points hpts _)

theorem seedExtras_bounds (points : List Point) (rand : ℕ → ℚ)
    (hpts : ∀ p ∈ points, pB p) :
    ∀ (n : ℕ) (cs : List RGBColor), (∀ c ∈ cs, cB c) →
    ∀ c ∈ seedExtras points rand n cs, cB c := by
  intro n
  induction n with
  | zero => intro cs hcs c hc; exact hcs c hc
  | succ m ih =>
    intro cs hcs c hc
    rw [seedExtras] at hc
    exact ih (seedStep points rand cs) (seedStep_bounds points rand cs hpts hcs) c hc

theorem seedCentroids_bounds (points : List Point) (k : ℤ) (rand : ℕ → ℚ)
    (hpts : ∀ p ∈ points, pB p) :
    ∀ c ∈ seedCentroids points k rand, cB c := by
  rw [seedCentroids]
  apply seedExtras_bounds points rand hpts
  intro c hc
  rw [List.mem_singleton.mp hc]
  exact pointRGB_bounds _ (getD_point_bounds points hpts _)

theorem updateStep_bounds (ps : List Point) (cs : List RGBColor)
    (hps : ∀ p ∈ ps, pB p) (hcs : ∀ c ∈ cs, cB c) :
    ∀ c ∈ updateStep ps cs, cB c := by
  intro c hc
  obtain ⟨⟨i, hi⟩, rfl⟩ := List.mem_iff_get.mp hc
  have hiu : i < cs.length := by rw [← updateStep_length ps cs]; exact hi
  rw [← list_getD_eq_get _ _ ⟨0, 0, 0⟩ hi, updateStep_getD ps cs i hiu]
  by_cases hposf : 0 < (ps.filter (fun p => decide (p.cluster = i))).length
  · rw [if_pos hposf]
    set fl := ps.filter (fun p => decide (p.cluster = i)) with hfl
    have hflsub : ∀ p ∈ fl, pB p := fun p hp => hps p (List.mem_of_mem_filter hp)
    have hn : (0 : ℚ) < ((fl.length : ℚ)) := by exact_mod_cast hposf
    have haux : ∀ (f : Point → ℚ), (∀ p ∈ fl, 0 ≤ f p ∧ f p ≤ 255) →
        0 ≤ (fl.map f).sum / ((fl.length : ℚ)) ∧
          (fl.map f).sum / ((fl.length : ℚ)) ≤ 255 := by
      intro f hf
      have h0 : 0 ≤ (fl.map f).sum := by
        apply list_sum_nonneg
        intro x hx
        obtain ⟨p, hp, rfl⟩ := List.mem_map.mp hx
        exact (hf p hp).1
      have h255 : (fl.map f).sum ≤ (((fl.map f).length : ℚ)) * 255 := by
        apply list_sum_le_mul
        intro x hx
        obtain ⟨p, hp, rfl⟩ := List.mem_map.mp hx
        exact (hf p hp).2
      rw [List.length_map] at h255
      constructor
      · positivity
      · rw [div_le_iff₀ hn]
        linarith [h255]
    refine ⟨(haux (fun p => p.r) ?_).1, (haux (fun p => p.r) ?_).2,
      (haux (fun p => p.g) ?_).1, (haux (fun p => p.g) ?_).2,
      (haux (fun p => p.b) ?_).1, (haux (fun p => p.b) ?_).2⟩ <;>
      intro p hp <;>
      obtain ⟨h1, h2, h3, h4, h5, h6⟩ := hflsub p hp
    · exact ⟨h1, h2⟩
    · exact ⟨h1, h2⟩
    · exact ⟨h3, h4⟩
    · exact ⟨h3, h4⟩
    · exact ⟨h5, h6⟩
    · exact ⟨h5, h6⟩
  · rw [if_neg hposf]
    rcases list_getD_mem_or_eq cs i ⟨0, 0, 0⟩ with hmem | heq
    · exact hcs _ hmem
    · rw [heq]
      refine ⟨by norm_num, by norm_num, by norm_num, by norm_num, by norm_num, by norm_num⟩

theorem assignAll_pB (cs : List RGBColor) (ps : List Point)
    (hps : ∀ p ∈ ps, pB p) : ∀ p ∈ assignAll cs ps, pB p := by
  intro p hp
  obtain ⟨q, hq, rfl⟩ := List.mem_map.mp hp
  exact hps q hq

theorem kmeansLoop_bounds : ∀ (fuel : ℕ) (ps : List Point) (cs : List RGBColor),
    (∀ p ∈ ps, pB p) → (∀ c ∈ cs, cB c) →
    ∀ c ∈ (kmeansLoop fuel ps cs).2, cB c := by
  intro fuel
  induction fuel with
  | zero => intro ps cs _ hcs c hc; exact hcs c hc
  | succ n ih =>
    intro ps cs hps hcs c hc
    rw [kmeansLoop] at hc
    by_cases hch : anyChanged cs ps = true
    · rw [if_pos hch] at hc
      exact ih (assignAll cs ps) (updateStep (assignAll cs ps) cs)
        (assignAll_pB cs ps hps)
        (updateStep_bounds (assignAll cs ps) cs (assignAll_pB cs ps hps) hcs) c hc
    · rw [if_neg hch] at hc
      exact hcs c hc

/-- C9: when every input sample's channels lie in `[0, 255]`, every centroid's
channels lie in `[0, 255]` at all times — for every iteration budget `fuel`,
covering the seeded list (`fuel = 0`) and the state after every update step
(each centroid is a copy of a sample or a component-wise mean of samples), so
no clamping is needed at output formatting. -/
theorem c9_centroid_channels_bounded (points : List Point) (k : ℤ) (rand : ℕ → ℚ)
    (fuel : ℕ) (h : points.all pointInRange = true) :
    (kMeans points k rand fuel).2.all centroidInRange = true := by
  have hpts : ∀ p ∈ points, pB p := by
    intro p hp
    exact (pointInRange_iff p).mp (List.all_eq_true.mp h p hp)
  rw [List.all_eq_true]
  intro c hc
  rw [centroidInRange_iff]
  rw [kMeans] at hc
  by_cases hpos : 0 < points.length
  · rw [if_pos hpos] at hc
    exact kmeansLoop_bounds fuel points (seedCentroids points k rand) hpts
      (seedCentroids_bounds points k rand hpts) c hc
  · rw [if_neg hpos] at hc
    have := kmeansLoop_bounds fuel points [] hpts (by simp) c hc
    exact this

/-- Witness for C9 at a concrete one-sample input, iteration budget 3. -/
theorem c9_centroid_channels_bounded_witness :
    ([(⟨12, 34, 56, 0⟩ : Point)]).all pointInRange = true ∧
      (kMeans [⟨12, 34, 56, 0⟩] 1 (fun _ => 0) 3).2.all centroidInRange = true :=
  ⟨by decide!, c9_centroid_channels_bounded [⟨12, 34, 56, 0⟩] 1 (fun _ => 0) 3 (by decide!)⟩

theorem string_data_append : ∀ (s t : String), (s ++ t).data = s.data ++ t.data := by
  intro s t
  cases s
  cases t
  rfl

theorem string_ext (s t : String) (h : s.data = t.data) : s = t := by
  cases s
  cases t
  exact congrArg String.mk h

set_option maxRecDepth 10000 in
theorem toHexPad_upper_eq : ∀ n : ℕ, n < 256 →
    ((if (hexStr n).length = 1 then "0" ++ hexStr n else hexStr n).data.map upperChar) =
      (hexPair n).data := by decide!

theorem jsRound_bounds (v : ℚ) (h0 : 0 ≤ v) (h255 : v ≤ 255) :
    0 ≤ jsRound v ∧ jsRound v ≤ 255 := by
  constructor
  · rw [jsRound]
    exact Int.le_floor.mpr (by push_cast; linarith)
  · rw [jsRound]
    have hlt : jsRound v < 256 := by
      rw [jsRound]
      exact Int.floor_lt.mpr (by push_cast; linarith)
    rw [jsRound] at hlt
    omega

/-- C8: for channel values in `[0, 255]` (fractional allowed), `rgbToHex`
rounds each channel to the nearest integer, formats it as exactly two
uppercase hexadecimal digits (zero padded below 16), and returns the three
pairs concatenated after a leading `#`: it agrees with the specification-side
formatter `rgbToHexSpec` and the result is a 7-character `#RRGGBB` string. -/
theorem c8_rgbToHex_format (r g b : ℚ)
    (hr : 0 ≤ r ∧ r ≤ 255) (hg : 0 ≤ g ∧ g ≤ 255) (hb : 0 ≤ b ∧ b ≤ 255) :
    rgbToHex r g b = rgbToHexSpec r g b ∧ (rgbToHex r g b).length = 7 := by
  have chan : ∀ v : ℚ, 0 ≤ v → v ≤ 255 →
      (toHex v).data.map upperChar = (hexPair (jsRound v).toNat).data := by
    intro v h0 h255
    obtain ⟨hr0, hr255⟩ := jsRound_bounds v h0 h255
    have hjs : jsToString16 (jsRound v) = hexStr (jsRound v).toNat := by
      rw [jsToString16, if_neg (by omega)]
    rw [toHex, hjs]
    exact toHexPad_upper_eq (jsRound v).toNat (by omega)
  have hdata : (rgbToHex r g b).data = (rgbToHexSpec r g b).data := by
    rw [rgbToHex, jsToUpperCase]
    rw [string_data_append, string_data_append, string_data_append]
    rw [List.map_append, List.map_append, List.map_append]
    rw [chan r hr.1 hr.2, chan g hg.1 hg.2, chan b hb.1 hb.2]
    have hhash : ("#".data.map upperChar) = "#".data := by decide
    rw [hhash, rgbToHexSpec]
    rw [string_data_append, string_data_append, string_data_append]
  constructor
  · exact string_ext _ _ hdata
  · have hlen : (rgbToHex r g b).length = (rgbToHex r g b).data.length := rfl
    rw [hlen, hdata, rgbToHexSpec, string_data_append, string_data_append,
      string_data_append]
    simp [List.length_append, hexPair]

/-- Witness for C8 at the fractional channel value 21/2 (rounds to 11, hex
"0B"). -/
theorem c8_rgbToHex_format_witness :
    ((0 : ℚ) ≤ 21 / 2 ∧ (21 / 2 : ℚ) ≤ 255) ∧
      rgbToHex (21 / 2) 0 255 = rgbToHexSpec (21 / 2) 0 255 ∧
      (rgbToHex (21 / 2) 0 255).length = 7 :=
  ⟨⟨by norm_num, by norm_num⟩,
    c8_rgbToHex_format (21 / 2) 0 255 ⟨by norm_num, by norm_num⟩
      ⟨by norm_num, by norm_num⟩ ⟨by norm_num, by norm_num⟩⟩

/-- C4 counterexample: the extraction's output depends on the ambient random
draws — the same two-pixel input run with two different draw streams produces
two different palettes, so repeated runs of the source (which reads
`Math.random()` afresh, with no seed parameter to fix) need not agree. -/
theorem c4_claim_counterexample :
    extractColorsCore [⟨0, 0, 0, 255⟩, ⟨255, 255, 255, 255⟩] 2 (fun _ => 0) ≠
      extractColorsCore [⟨0, 0, 0, 255⟩, ⟨255, 255, 255, 255⟩] 2
        (fun i => if i = 0 then 0 else 1 / 2) := by decide!

/-- C4 amended: the source draws from ambient `Math.random` (no injectable
seed or generator parameter exists), so determinism holds only relative to
the draws: modelling them as an explicit stream, identical input and
pointwise-identical streams yield identical output. -/
theorem c4_amended_determinism_fixed_draws (data : List RGBA) (K : ℤ)
    (r1 r2 : ℕ → ℚ) (h : ∀ i, r1 i = r2 i) :
    extractColorsCore data K r1 = extractColorsCore data K r2 := by
  rw [funext h]

/-- Witness for the amended C4 with two syntactically different but pointwise
equal draw streams. -/
theorem c4_amended_determinism_fixed_draws_witness :
    (∀ i : ℕ, (fun _ : ℕ => (0 : ℚ)) i = (fun j : ℕ => if j = j then (0 : ℚ) else 1) i) ∧
      extractColorsCore [⟨1, 1, 1, 255⟩] 3 (fun _ => 0) =
        extractColorsCore [⟨1, 1, 1, 255⟩] 3 (fun j => if j = j then 0 else 1) :=
  ⟨by intro i; simp,
    c4_amended_determinism_fixed_draws [⟨1, 1, 1, 255⟩] 3 (fun _ => 0)
      (fun j => if j = j then 0 else 1) (by intro i; simp)⟩
